import Mathlib

/-!
Verification of the historical-sync orchestrator and truncate-and-replace
staging pipeline of the lengolf_sales repository.

The development shallowly embeds the relevant code:
- `utils.py`: `get_last_day_of_month`, `split_date_range_by_month`,
  `validate_date_range`, `calculate_sync_estimates`;
- `supabase_client.py`: `SupabaseClient.insert_staging_data`;
- `services.py`: `SalesService.sync_historical_data`, `sync_daily_data`,
  `get_sync_estimates`.

Python `datetime.date` values are modelled by the `Date` structure below with
the usual lexicographic order; external collaborators (the scraper and the
Supabase RPCs) are modelled by explicit oracles describing the outcome of
each call, and the stateful functions return an explicit trace of their
externally visible effects.
-/

/-- Calendar date, embedding Python `datetime.date` (year, month, day). -/
structure Date where
  year : Nat
  month : Nat
  day : Nat
deriving DecidableEq

/-- Python date comparison `a <= b`: lexicographic on (year, month, day). -/
def Date.le (a b : Date) : Prop :=
  a.year < b.year ∨ (a.year = b.year ∧
    (a.month < b.month ∨ (a.month = b.month ∧ a.day ≤ b.day)))

/-- Python date comparison `a < b`: strict lexicographic order. -/
def Date.lt (a b : Date) : Prop :=
  a.year < b.year ∨ (a.year = b.year ∧
    (a.month < b.month ∨ (a.month = b.month ∧ a.day < b.day)))

instance : LE Date := ⟨Date.le⟩
instance : LT Date := ⟨Date.lt⟩

instance (a b : Date) : Decidable (a ≤ b) :=
  show Decidable (a.year < b.year ∨ (a.year = b.year ∧
    (a.month < b.month ∨ (a.month = b.month ∧ a.day ≤ b.day)))) from inferInstance

instance (a b : Date) : Decidable (a < b) :=
  show Decidable (a.year < b.year ∨ (a.year = b.year ∧
    (a.month < b.month ∨ (a.month = b.month ∧ a.day < b.day)))) from inferInstance

theorem Date.le_def (a b : Date) : a ≤ b ↔
    (a.year < b.year ∨ (a.year = b.year ∧
      (a.month < b.month ∨ (a.month = b.month ∧ a.day ≤ b.day)))) := Iff.rfl

theorem Date.lt_def (a b : Date) : a < b ↔
    (a.year < b.year ∨ (a.year = b.year ∧
      (a.month < b.month ∨ (a.month = b.month ∧ a.day < b.day)))) := Iff.rfl

theorem Date.le_refl (a : Date) : a ≤ a := by
  rw [Date.le_def]; omega

theorem Date.le_trans {a b c : Date} (h1 : a ≤ b) (h2 : b ≤ c) : a ≤ c := by
  rw [Date.le_def] at *; omega

theorem Date.not_lt {a b : Date} : ¬ a < b ↔ b ≤ a := by
  rw [Date.le_def, Date.lt_def]; omega

theorem Date.le_of_lt {a b : Date} (h : a < b) : a ≤ b := by
  rw [Date.le_def] at *; rw [Date.lt_def] at h; omega

theorem Date.lt_or_eq_of_le {a b : Date} (h : a ≤ b) : a < b ∨ a = b := by
  rw [Date.le_def] at h; rw [Date.lt_def]
  rcases a with ⟨ay, am, ad⟩
  rcases b with ⟨by_, bm, bd⟩
  simp only [Date.mk.injEq]
  simp only at h
  omega

/-- Leap-year rule used by Python's `datetime`/Gregorian calendar. -/
def isLeapYear (y : Nat) : Bool :=
  (y % 4 == 0 && y % 100 != 0) || y % 400 == 0

/-- Number of days in a month of the Gregorian calendar, as in Python's
`datetime.date`. -/
def daysInMonth (y m : Nat) : Nat :=
  if m = 2 then (if isLeapYear y then 29 else 28)
  else if m = 4 ∨ m = 6 ∨ m = 9 ∨ m = 11 then 30
  else 31

theorem daysInMonth_bounds (y m : Nat) :
    1 ≤ daysInMonth y m ∧ daysInMonth y m ≤ 31 := by
  unfold daysInMonth
  split
  · split <;> omega
  · split <;> omega

/-- A structurally valid Gregorian date; every Python `datetime.date` value
satisfies this (Python raises on construction otherwise). -/
def Date.Valid (d : Date) : Prop :=
  1 ≤ d.month ∧ d.month ≤ 12 ∧ 1 ≤ d.day ∧ d.day ≤ daysInMonth d.year d.month

instance (d : Date) : Decidable d.Valid :=
  show Decidable (_ ∧ _ ∧ _ ∧ _) from inferInstance

/-- Embeds `get_last_day_of_month` (utils.py): `date(y, m+1, 1) - 1 day`
(or `date(y+1, 1, 1) - 1 day` for December), i.e. the last day of month `m`. -/
def get_last_day_of_month (year month : Nat) : Date :=
  ⟨year, month, daysInMonth year month⟩

/-- Embeds `d + relativedelta(days=1)`: the next calendar day. -/
def nextDay (d : Date) : Date :=
  if d.day < daysInMonth d.year d.month then ⟨d.year, d.month, d.day + 1⟩
  else if d.month < 12 then ⟨d.year, d.month + 1, 1⟩
  else ⟨d.year + 1, 1, 1⟩

theorem nextDay_valid {d : Date} (h : d.Valid) : (nextDay d).Valid := by
  rcases h with ⟨h1, h2, h3, h4⟩
  unfold nextDay
  split
  · exact ⟨h1, h2, by dsimp only; omega, by dsimp only; omega⟩
  · split
    · refine ⟨by dsimp only; omega, by dsimp only; omega, by dsimp only; omega, ?_⟩
      exact (daysInMonth_bounds d.year (d.month + 1)).1
    · refine ⟨by dsimp only; omega, by dsimp only; omega, by dsimp only; omega, ?_⟩
      exact (daysInMonth_bounds (d.year + 1) 1).1

theorem lt_nextDay (d : Date) : d < nextDay d := by
  unfold nextDay
  split
  · rw [Date.lt_def]; dsimp only; omega
  · split
    · rw [Date.lt_def]; dsimp only; omega
    · rw [Date.lt_def]; dsimp only; omega

/-- `nextDay d` is the least valid date strictly greater than `d`: any valid
date strictly above `d` is at least `nextDay d`. -/
theorem nextDay_le_of_lt {d e : Date} (hd : d.Valid) (he : e.Valid)
    (h : d < e) : nextDay d ≤ e := by
  rcases hd with ⟨hd1, hd2, hd3, hd4⟩
  rcases he with ⟨he1, he2, he3, he4⟩
  rw [Date.lt_def] at h
  unfold nextDay
  split
  · rw [Date.le_def]; dsimp only; omega
  · split
    · rw [Date.le_def]; dsimp only
      rcases h with h | ⟨hy, h⟩
      · omega
      · rcases h with h | ⟨hm, h⟩
        · omega
        · exfalso
          have : daysInMonth e.year e.month = daysInMonth d.year d.month := by
            rw [hy, hm]
          omega
    · rw [Date.le_def]; dsimp only
      rcases h with h | ⟨hy, h⟩
      · omega
      · exfalso
        rcases h with h | ⟨hm, h⟩
        · omega
        · have : daysInMonth e.year e.month = daysInMonth d.year d.month := by
            rw [hy, hm]
          omega

theorem Date.not_le_of_lt {a b : Date} (h : a < b) : ¬ b ≤ a := by
  rw [Date.lt_def] at h; rw [Date.le_def]; omega

theorem Date.lt_irrefl (a : Date) : ¬ a < a := by
  rw [Date.lt_def]; omega

theorem Date.le_antisymm {a b : Date} (h1 : a ≤ b) (h2 : b ≤ a) : a = b := by
  rcases a with ⟨ay, am, ad⟩
  rcases b with ⟨by_, bm, bd⟩
  rw [Date.le_def] at h1 h2
  dsimp only at h1 h2
  simp only [Date.mk.injEq]
  omega

/-- The index of a date's calendar month on the infinite month axis;
`year * 12 + month` as computed by `validate_date_range` (utils.py). -/
def monthIndex (d : Date) : Nat := d.year * 12 + d.month

theorem monthIndex_le_of_le {s e : Date} (hs : s.Valid) (he : e.Valid)
    (h : s ≤ e) : monthIndex s ≤ monthIndex e := by
  rcases hs with ⟨hs1, hs2, _, _⟩
  rcases he with ⟨he1, he2, _, _⟩
  rw [Date.le_def] at h
  unfold monthIndex
  omega

/-- Python `min` of two dates: the first argument when it compares `<=`. -/
def minDate (a b : Date) : Date := if a ≤ b then a else b

/-- One iteration bound of the `while current <= end_date` loop of
`split_date_range_by_month` (utils.py).  Each iteration either terminates the
loop or advances `current` to the first day of the next calendar month, so the
loop runs at most `monthIndex end + 1 - monthIndex start` times; that count is
supplied as the structural recursion depth by the wrapper below. -/
def splitAux : Nat → Date → Date → List (Date × Date)
  | 0, _, _ => []
  | fuel + 1, current, e =>
    if current ≤ e then
      (current, minDate (get_last_day_of_month current.year current.month) e) ::
        splitAux fuel
          (nextDay (minDate (get_last_day_of_month current.year current.month) e)) e
    else []

/-- Embeds `split_date_range_by_month` (utils.py): split a date range into
monthly chunks, returning the list of `(chunk_start, chunk_end)` pairs. -/
def split_date_range_by_month (start_date end_date : Date) : List (Date × Date) :=
  splitAux (monthIndex end_date + 1 - monthIndex start_date) start_date end_date

theorem splitAux_nil (f : Nat) (s e : Date) (h : ¬ s ≤ e) :
    splitAux f s e = [] := by
  cases f with
  | zero => rfl
  | succ f => simp only [splitAux, if_neg h]

/-- Consecutive chunks are adjacent: each chunk starts the day after the
previous one ends (the no-gap / no-overlap property). -/
def chunksAdjacent : List (Date × Date) → Prop
  | [] => True
  | [_] => True
  | a :: b :: rest => nextDay a.2 = b.1 ∧ chunksAdjacent (b :: rest)

theorem lastDay_valid {s : Date} (hs : s.Valid) :
    (get_last_day_of_month s.year s.month).Valid := by
  rcases hs with ⟨h1, h2, _, _⟩
  exact ⟨h1, h2, (daysInMonth_bounds s.year s.month).1, Nat.le_refl _⟩

theorem le_lastDay {s : Date} (hs : s.Valid) :
    s ≤ get_last_day_of_month s.year s.month := by
  rcases hs with ⟨_, _, _, h4⟩
  rw [Date.le_def]
  unfold get_last_day_of_month
  dsimp only
  omega

theorem monthIndex_nextDay_lastDay {s : Date} (hs : s.Valid) :
    monthIndex (nextDay (get_last_day_of_month s.year s.month)) =
      monthIndex s + 1 := by
  rcases hs with ⟨h1, h2, _, _⟩
  unfold nextDay get_last_day_of_month
  dsimp only
  rw [if_neg (by omega)]
  split
  · unfold monthIndex; dsimp only; omega
  · unfold monthIndex; dsimp only; omega

/-- Full characterization of the chunk list produced by `splitAux` when the
supplied fuel covers the month span of the (valid, ordered) range. -/
theorem splitAux_spec (e : Date) (he : e.Valid) :
    ∀ (f : Nat) (s : Date), s.Valid → s ≤ e →
      monthIndex e + 1 - monthIndex s ≤ f →
      (∃ c rest, splitAux f s e = (s, c) :: rest) ∧
      (splitAux f s e).getLast?.map Prod.snd = some e ∧
      (∀ p ∈ splitAux f s e,
        p.1 ≤ p.2 ∧ p.1.year = p.2.year ∧ p.1.month = p.2.month) ∧
      chunksAdjacent (splitAux f s e) ∧
      (s = e → splitAux f s e = [(s, s)]) := by
  intro f
  induction f with
  | zero =>
    intro s hsv hle hf
    exact absurd (monthIndex_le_of_le hsv he hle) (by omega)
  | succ f ih =>
    intro s hsv hle hf
    have hmev : (get_last_day_of_month s.year s.month).Valid := lastDay_valid hsv
    have hsme : s ≤ get_last_day_of_month s.year s.month := le_lastDay hsv
    set me := get_last_day_of_month s.year s.month with hme
    set ce := minDate me e with hce
    have hcev : ce.Valid := by
      rw [hce]; unfold minDate; split
      · exact hmev
      · exact he
    have hsce : s ≤ ce := by
      rw [hce]; unfold minDate; split
      · exact hsme
      · exact hle
    have hcee : ce ≤ e := by
      rw [hce]; unfold minDate; split
      · assumption
      · exact Date.le_refl e
    have hwm : s.year = ce.year ∧ s.month = ce.month := by
      rw [hce]; unfold minDate; split
      · rw [hme]; unfold get_last_day_of_month; exact ⟨rfl, rfl⟩
      · rename_i hnot
        have hem : e < me := by
          rcases Date.lt_or_eq_of_le (by rw [Date.le_def]; rw [Date.le_def] at hnot; omega :
            e ≤ me) with h | h
          · exact h
          · exact absurd (h ▸ Date.le_refl e) hnot
        rw [hme] at hem
        rw [Date.lt_def] at hem
        rw [Date.le_def] at hle
        unfold get_last_day_of_month at hem
        dsimp only at hem
        constructor <;> omega
    have hunf : splitAux (f + 1) s e = (s, ce) :: splitAux f (nextDay ce) e := by
      simp only [splitAux, if_pos hle, hce, hme]
    rcases Date.lt_or_eq_of_le hcee with hlt | heq
    · -- the chunk ends strictly before the overall end: recurse
      have hmee : me ≤ e := by
        by_contra hnot
        have : ce = e := by rw [hce]; unfold minDate; rw [if_neg hnot]
        rw [this] at hlt
        exact Date.lt_irrefl e hlt
      have hceme : ce = me := by rw [hce]; unfold minDate; rw [if_pos hmee]
      have hs2v : (nextDay ce).Valid := nextDay_valid hcev
      have hs2le : nextDay ce ≤ e := nextDay_le_of_lt hcev he hlt
      have hmi : monthIndex (nextDay ce) = monthIndex s + 1 := by
        rw [hceme, hme]
        exact monthIndex_nextDay_lastDay hsv
      have hf2 : monthIndex e + 1 - monthIndex (nextDay ce) ≤ f := by omega
      obtain ⟨⟨c2, rest2, heq2⟩, hlast, hwithin, hadj, _⟩ :=
        ih (nextDay ce) hs2v hs2le hf2
      refine ⟨⟨ce, _, hunf⟩, ?_, ?_, ?_, ?_⟩
      · rw [hunf, heq2, List.getLast?_cons_cons, ← heq2]
        exact hlast
      · intro p hp
        rw [hunf] at hp
        rcases List.mem_cons.mp hp with h | h
        · subst h; exact ⟨hsce, hwm.1, hwm.2⟩
        · exact hwithin p h
      · rw [hunf, heq2]
        refine ⟨?_, ?_⟩
        · dsimp only
        · rw [← heq2]; exact hadj
      · intro hse
        exfalso
        rw [hse] at hsce
        have : ce = e := Date.le_antisymm hcee hsce
        rw [this] at hlt
        exact Date.lt_irrefl e hlt
    · -- the chunk ends exactly at the overall end: the loop terminates
      have htail : splitAux f (nextDay ce) e = [] := by
        apply splitAux_nil
        rw [heq]
        exact Date.not_le_of_lt (lt_nextDay e)
      rw [heq] at hunf htail hsce hwm
      refine ⟨⟨e, _, hunf⟩, ?_, ?_, ?_, ?_⟩
      · rw [hunf, htail]
        rfl
      · intro p hp
        rw [hunf, htail] at hp
        rcases List.mem_cons.mp hp with h | h
        · subst h
          exact ⟨hsce, hwm.1, hwm.2⟩
        · cases h
      · rw [hunf, htail]
        exact trivial
      · intro hse
        rw [hunf, htail, ← hse]

/-- C4: for every valid date range with `start <= end`,
`split_date_range_by_month` returns a non-empty ordered list of chunks whose
first chunk starts at `start`, whose last chunk ends at `end`, where every
chunk lies within one calendar month (its start and end share year and month,
truncation at the overall boundaries included), and where each consecutive
pair satisfies `chunk[i].end + 1 day = chunk[i+1].start` (no gaps, no
overlaps); a single-day range yields exactly one chunk. -/
theorem C4_split_covers_range (s e : Date) (hs : s.Valid) (he : e.Valid)
    (hle : s ≤ e) :
    split_date_range_by_month s e ≠ [] ∧
    (split_date_range_by_month s e).head?.map Prod.fst = some s ∧
    (split_date_range_by_month s e).getLast?.map Prod.snd = some e ∧
    (∀ p ∈ split_date_range_by_month s e,
      p.1 ≤ p.2 ∧ p.1.year = p.2.year ∧ p.1.month = p.2.month) ∧
    chunksAdjacent (split_date_range_by_month s e) ∧
    (s = e → split_date_range_by_month s e = [(s, s)]) := by
  obtain ⟨⟨c, rest, hconseq⟩, hlast, hwithin, hadj, hsingle⟩ :=
    splitAux_spec e he (monthIndex e + 1 - monthIndex s) s hs hle (Nat.le_refl _)
  unfold split_date_range_by_month
  refine ⟨?_, ?_, hlast, hwithin, hadj, hsingle⟩
  · rw [hconseq]; exact List.cons_ne_nil _ _
  · rw [hconseq]; rfl

/-- Witness for C4 at the concrete range 2024-03-01 .. 2024-04-15. -/
theorem C4_split_covers_range_witness :
    (Date.Valid ⟨2024, 3, 1⟩ ∧ Date.Valid ⟨2024, 4, 15⟩ ∧
      (⟨2024, 3, 1⟩ : Date) ≤ ⟨2024, 4, 15⟩) ∧
    (split_date_range_by_month ⟨2024, 3, 1⟩ ⟨2024, 4, 15⟩ ≠ [] ∧
    (split_date_range_by_month ⟨2024, 3, 1⟩ ⟨2024, 4, 15⟩).head?.map Prod.fst =
      some ⟨2024, 3, 1⟩ ∧
    (split_date_range_by_month ⟨2024, 3, 1⟩ ⟨2024, 4, 15⟩).getLast?.map Prod.snd =
      some ⟨2024, 4, 15⟩ ∧
    (∀ p ∈ split_date_range_by_month ⟨2024, 3, 1⟩ ⟨2024, 4, 15⟩,
      p.1 ≤ p.2 ∧ p.1.year = p.2.year ∧ p.1.month = p.2.month) ∧
    chunksAdjacent (split_date_range_by_month ⟨2024, 3, 1⟩ ⟨2024, 4, 15⟩) ∧
    ((⟨2024, 3, 1⟩ : Date) = ⟨2024, 4, 15⟩ →
      split_date_range_by_month ⟨2024, 3, 1⟩ ⟨2024, 4, 15⟩ =
        [(⟨2024, 3, 1⟩, ⟨2024, 3, 1⟩)])) :=
  ⟨⟨by decide, by decide, by decide⟩,
    C4_split_covers_range ⟨2024, 3, 1⟩ ⟨2024, 4, 15⟩ (by decide) (by decide)
      (by decide)⟩

/-- Embeds `d + relativedelta(months=n)` (dateutil): add `n` months, keeping
the day of month but clamping it to the length of the resulting month. -/
def addMonths (d : Date) (n : Nat) : Date :=
  let t := d.year * 12 + (d.month - 1) + n
  let y := t / 12
  let m := t % 12 + 1
  ⟨y, m, min d.day (daysInMonth y m)⟩

/-- Embeds the month-difference computation of `validate_date_range`
(utils.py line 102): `(end.year - start.year) * 12 + (end.month - start.month)`
on Python ints. -/
def monthsDiff (s e : Date) : Int :=
  ((e.year : Int) - s.year) * 12 + ((e.month : Int) - s.month)

def warnFutureStart : String :=
  "Start date adjusted to today (cannot sync future dates)"

def warnFutureEnd : String :=
  "End date adjusted to today (cannot sync future dates)"

def warnRangeLimited : String :=
  "Date range limited to 12 months to prevent timeout"

def warnEarliest : String :=
  "Start date adjusted to March 1, 2024 (earliest available data)"

def warnSwapped : String :=
  "Start and end dates were swapped"

/-- The earliest-allowed date of `validate_date_range`: `date(2024, 3, 1)`. -/
def earliest_allowed : Date := ⟨2024, 3, 1⟩

/-- Embeds `validate_date_range` (utils.py).  `current_date` stands for
`get_current_time().date()` (today in the configured timezone), passed
explicitly to keep the function pure.  The five adjustment rules are applied
in source order: clamp start to today, clamp end to today, limit the span to
12 months, clamp start to the earliest-allowed date, and finally swap if
start ended up after end. -/
def validate_date_range (start_date end_date current_date : Date) :
    Date × Date × List String :=
  let s1 := if current_date < start_date then current_date else start_date
  let w1 : List String :=
    if current_date < start_date then [warnFutureStart] else []
  let e1 := if current_date < end_date then current_date else end_date
  let w2 := w1 ++ (if current_date < end_date then [warnFutureEnd] else [])
  let e2 := if 12 < monthsDiff s1 e1 then addMonths s1 12 else e1
  let w3 := w2 ++ (if 12 < monthsDiff s1 e1 then [warnRangeLimited] else [])
  let s2 := if s1 < earliest_allowed then earliest_allowed else s1
  let w4 := w3 ++ (if s1 < earliest_allowed then [warnEarliest] else [])
  let s3 := if e2 < s2 then e2 else s2
  let e3 := if e2 < s2 then s2 else e2
  let w5 := w4 ++ (if e2 < s2 then [warnSwapped] else [])
  (s3, e3, w5)

theorem addMonths_twelve {d : Date} (hd : d.Valid) :
    addMonths d 12 =
      ⟨d.year + 1, d.month, min d.day (daysInMonth (d.year + 1) d.month)⟩ := by
  rcases hd with ⟨h1, h2, _, _⟩
  unfold addMonths
  dsimp only
  have hy : (d.year * 12 + (d.month - 1) + 12) / 12 = d.year + 1 := by omega
  have hm : (d.year * 12 + (d.month - 1) + 12) % 12 + 1 = d.month := by omega
  rw [hy, hm]

theorem Date.lt_of_lt_of_le {a b c : Date} (h1 : a < b) (h2 : b ≤ c) : a < c := by
  rw [Date.lt_def] at *; rw [Date.le_def] at h2; omega

/-- C3 (amended): for valid inputs with `start >= 2024-03-01`,
`start <= end` and `today >= 2024-03-01`, the output of
`validate_date_range` satisfies all four postconditions:
`start' <= end'`, `end' <= today`, `start' >=` the earliest-allowed date,
and a month-span of at most 12 calendar months. -/
theorem C3_validate_postconditions (sd ed cd : Date)
    (hsv : sd.Valid) (hev : ed.Valid) (hcv : cd.Valid)
    (h1 : earliest_allowed ≤ sd) (h2 : sd ≤ ed) (h3 : earliest_allowed ≤ cd) :
    (validate_date_range sd ed cd).1 ≤ (validate_date_range sd ed cd).2.1 ∧
    (validate_date_range sd ed cd).2.1 ≤ cd ∧
    earliest_allowed ≤ (validate_date_range sd ed cd).1 ∧
    monthsDiff (validate_date_range sd ed cd).1
      (validate_date_range sd ed cd).2.1 ≤ 12 := by
  unfold validate_date_range
  dsimp only
  by_cases hc1 : cd < sd
  · -- start clamped to today; then end is clamped to today as well
    have hc2 : cd < ed := Date.lt_of_lt_of_le hc1 h2
    simp only [if_pos hc1, if_pos hc2]
    have hd0 : ¬ (12 < monthsDiff cd cd) := by unfold monthsDiff; omega
    simp only [if_neg hd0, if_neg (Date.not_lt.mpr h3),
      if_neg (Date.not_lt.mpr (Date.le_refl cd))]
    exact ⟨Date.le_refl cd, Date.le_refl cd, h3, by unfold monthsDiff; omega⟩
  · simp only [if_neg hc1]
    have hsdcd : sd ≤ cd := Date.not_lt.mp hc1
    by_cases hc2 : cd < ed
    · -- end clamped to today
      simp only [if_pos hc2]
      by_cases hc3 : 12 < monthsDiff sd cd
      · simp only [if_pos hc3, addMonths_twelve hsv, if_neg (Date.not_lt.mpr h1)]
        have hkey : (⟨sd.year + 1, sd.month,
            min sd.day (daysInMonth (sd.year + 1) sd.month)⟩ : Date) ≤ cd := by
          unfold monthsDiff at hc3
          rcases hsv with ⟨hs1, hs2, _, _⟩
          rcases hcv with ⟨hc1v, hc2v, _, _⟩
          rw [Date.le_def]
          dsimp only
          omega
        have hge : sd ≤ (⟨sd.year + 1, sd.month,
            min sd.day (daysInMonth (sd.year + 1) sd.month)⟩ : Date) := by
          rw [Date.le_def]; dsimp only; omega
        simp only [if_neg (Date.not_lt.mpr hge)]
        refine ⟨hge, hkey, h1, ?_⟩
        unfold monthsDiff
        dsimp only
        omega
      · simp only [if_neg hc3, if_neg (Date.not_lt.mpr h1),
          if_neg (Date.not_lt.mpr hsdcd)]
        refine ⟨hsdcd, Date.le_refl cd, h1, ?_⟩
        unfold monthsDiff at hc3
        unfold monthsDiff
        omega
    · -- end stays as supplied (it does not exceed today)
      simp only [if_neg hc2]
      have hedcd : ed ≤ cd := Date.not_lt.mp hc2
      by_cases hc3 : 12 < monthsDiff sd ed
      · simp only [if_pos hc3, addMonths_twelve hsv, if_neg (Date.not_lt.mpr h1)]
        have hkey : (⟨sd.year + 1, sd.month,
            min sd.day (daysInMonth (sd.year + 1) sd.month)⟩ : Date) ≤ ed := by
          unfold monthsDiff at hc3
          rcases hsv with ⟨hs1, hs2, _, _⟩
          rcases hev with ⟨he1, he2, _, _⟩
          rw [Date.le_def]
          dsimp only
          omega
        have hge : sd ≤ (⟨sd.year + 1, sd.month,
            min sd.day (daysInMonth (sd.year + 1) sd.month)⟩ : Date) := by
          rw [Date.le_def]; dsimp only; omega
        simp only [if_neg (Date.not_lt.mpr hge)]
        refine ⟨hge, Date.le_trans hkey hedcd, h1, ?_⟩
        unfold monthsDiff
        dsimp only
        omega
      · simp only [if_neg hc3, if_neg (Date.not_lt.mpr h1),
          if_neg (Date.not_lt.mpr h2)]
        refine ⟨h2, hedcd, h1, ?_⟩
        unfold monthsDiff at hc3
        unfold monthsDiff
        omega

/-- C3 counterexample: on the valid input `start=2024-01-01`,
`end=2024-02-01`, `today=2025-01-01`, the claimed postcondition
`start' >= 2024-03-01` fails: the earliest-date clamp pushes start past end
and the final swap assigns `start' = 2024-02-01 < 2024-03-01`. -/
theorem C3_counterexample :
    Date.Valid ⟨2024, 1, 1⟩ ∧ Date.Valid ⟨2024, 2, 1⟩ ∧
    Date.Valid ⟨2025, 1, 1⟩ ∧
    (validate_date_range ⟨2024, 1, 1⟩ ⟨2024, 2, 1⟩ ⟨2025, 1, 1⟩).1 =
      ⟨2024, 2, 1⟩ ∧
    ¬ earliest_allowed ≤
      (validate_date_range ⟨2024, 1, 1⟩ ⟨2024, 2, 1⟩ ⟨2025, 1, 1⟩).1 := by
  decide

/-- Witness for C3 at `start=2024-06-01`, `end=2024-08-15`,
`today=2025-01-10`. -/
theorem C3_validate_postconditions_witness :
    (Date.Valid ⟨2024, 6, 1⟩ ∧ Date.Valid ⟨2024, 8, 15⟩ ∧
      Date.Valid ⟨2025, 1, 10⟩ ∧ earliest_allowed ≤ ⟨2024, 6, 1⟩ ∧
      (⟨2024, 6, 1⟩ : Date) ≤ ⟨2024, 8, 15⟩ ∧
      earliest_allowed ≤ ⟨2025, 1, 10⟩) ∧
    ((validate_date_range ⟨2024, 6, 1⟩ ⟨2024, 8, 15⟩ ⟨2025, 1, 10⟩).1 ≤
      (validate_date_range ⟨2024, 6, 1⟩ ⟨2024, 8, 15⟩ ⟨2025, 1, 10⟩).2.1 ∧
    (validate_date_range ⟨2024, 6, 1⟩ ⟨2024, 8, 15⟩ ⟨2025, 1, 10⟩).2.1 ≤
      ⟨2025, 1, 10⟩ ∧
    earliest_allowed ≤
      (validate_date_range ⟨2024, 6, 1⟩ ⟨2024, 8, 15⟩ ⟨2025, 1, 10⟩).1 ∧
    monthsDiff (validate_date_range ⟨2024, 6, 1⟩ ⟨2024, 8, 15⟩ ⟨2025, 1, 10⟩).1
      (validate_date_range ⟨2024, 6, 1⟩ ⟨2024, 8, 15⟩ ⟨2025, 1, 10⟩).2.1 ≤ 12) :=
  ⟨⟨by decide, by decide, by decide, by decide, by decide, by decide⟩,
    C3_validate_postconditions ⟨2024, 6, 1⟩ ⟨2024, 8, 15⟩ ⟨2025, 1, 10⟩
      (by decide) (by decide) (by decide) (by decide) (by decide) (by decide)⟩

/-- Days of the proleptic Gregorian calendar before January 1 of year `y`,
as in Python's `date.toordinal`: `(y-1)*365` plus the leap days among the
first `y-1` years. -/
def daysBeforeYear (y : Nat) : Nat :=
  (y - 1) * 365 + ((y - 1) / 4 - (y - 1) / 100 + (y - 1) / 400)

/-- Days of year `y` strictly before month `m`. -/
def daysBeforeMonth (y m : Nat) : Nat :=
  ((List.range (m - 1)).map (fun i => daysInMonth y (i + 1))).sum

/-- Python `date.toordinal`: the 1-based day number of a date in the
proleptic Gregorian calendar.  Date subtraction `(b - a).days` is
`toOrdinal b - toOrdinal a`. -/
def toOrdinal (d : Date) : Nat :=
  daysBeforeYear d.year + daysBeforeMonth d.year d.month + d.day

/-- `(b - a).days` for Python dates. -/
def daysBetween (a b : Date) : Int :=
  (toOrdinal b : Int) - (toOrdinal a : Int)

/-- One entry of the `chunks` list of `calculate_sync_estimates`. -/
structure ChunkEstimate where
  start : Date
  endD : Date
  days : Int
deriving DecidableEq

/-- Result of `calculate_sync_estimates` (utils.py). -/
structure SyncEstimates where
  total_days : Int
  monthly_chunks : Nat
  estimated_time_minutes : Nat
  chunks : List ChunkEstimate
deriving DecidableEq

/-- Embeds `calculate_sync_estimates` (utils.py). -/
def calculate_sync_estimates (start_date end_date : Date) : SyncEstimates :=
  let monthly_chunks := split_date_range_by_month start_date end_date
  { total_days := daysBetween start_date end_date + 1
    monthly_chunks := monthly_chunks.length
    estimated_time_minutes := monthly_chunks.length * 2
    chunks := monthly_chunks.map (fun c =>
      { start := c.1, endD := c.2, days := daysBetween c.1 c.2 + 1 }) }

/-- Result of `SalesService.get_sync_estimates` (services.py), keeping the
fields the claims are about: the validated range, the warnings, the
estimates, and the `proceed` recommendation. -/
structure EstimatesResponse where
  validated_start : Date
  validated_end : Date
  warnings : List String
  estimates : SyncEstimates
  proceed : Bool
deriving DecidableEq

/-- Embeds `SalesService.get_sync_estimates` (services.py): validate the
range, compute estimates on the validated range, and recommend `proceed`
exactly when the monthly chunk count is at most 6. -/
def get_sync_estimates (start_date end_date current_date : Date) :
    EstimatesResponse :=
  let v := validate_date_range start_date end_date current_date
  let estimates := calculate_sync_estimates v.1 v.2.1
  { validated_start := v.1
    validated_end := v.2.1
    warnings := v.2.2
    estimates := estimates
    proceed := decide (estimates.monthly_chunks ≤ 6) }

/-- C9: for every request, `get_sync_estimates` recommends `proceed = true`
exactly when the validated range splits into at most 6 monthly chunks. -/
theorem C9_proceed_iff_at_most_six_chunks (sd ed cd : Date) :
    (get_sync_estimates sd ed cd).proceed = true ↔
      (split_date_range_by_month (get_sync_estimates sd ed cd).validated_start
        (get_sync_estimates sd ed cd).validated_end).length ≤ 6 := by
  unfold get_sync_estimates calculate_sync_estimates
  dsimp only
  exact decide_eq_true_iff

/-- One row of the scraped DataFrame, keeping the only column
`insert_staging_data` branches on: the raw `date` value.  `none` models a
missing value (pandas NaN); `some s` a present string.  The remaining columns
only flow unchanged into the prepared staging record (supabase_client.py
lines 120-185 map each cleaned row to exactly one staging record), so a
prepared record is identified here by its source row. -/
structure RawRecord where
  date : Option String
deriving DecidableEq

/-- The scraped DataFrame: whether a `date` column exists at all, and the
rows. -/
structure DataFrame where
  hasDateColumn : Bool
  rows : List RawRecord
deriving DecidableEq

/-- The pandas filter of supabase_client.py line 96:
`df['date'].notna() & (df['date'] != '') & (df['date'] != 'nan')`. -/
def usableDate (r : RawRecord) : Bool :=
  match r.date with
  | none => false
  | some s => s != "" && s != "nan"

/-- `pd.to_datetime(value, errors='coerce')` on one row's date value,
abstracted by the parse function `parse`; `none` models NaT (dropped by
`.dropna()`). -/
def parseOf (parse : String → Option Date) (r : RawRecord) : Option Date :=
  match r.date with
  | none => none
  | some s => parse s

/-- Python `min` over a non-empty list of dates, folded from a first
element. -/
def listMinD (l : List Date) (d0 : Date) : Date :=
  l.foldl (fun a b => if b < a then b else a) d0

/-- Python `max` over a non-empty list of dates, folded from a first
element. -/
def listMaxD (l : List Date) (d0 : Date) : Date :=
  l.foldl (fun a b => if a < b then b else a) d0

/-- Outcome of the Supabase insert calls, supplied by the environment: does
the single bulk insert raise, and does the fallback batch at index `j`
(rows `j*50 .. j*50+49`) raise.  A non-raising insert reports the rows it
inserted (`result.data`), so it contributes its batch size to the running
count. -/
structure DbOracle where
  bulkInsertFails : Bool
  batchInsertFails : Nat → Bool

/-- The fallback loop of supabase_client.py lines 227-240: iterate over
`range(0, n, 50)`, skip batches whose insert raises, and accumulate the
reported row counts of the successful batches. -/
def fallbackInsertTotal (n : Nat) (fails : Nat → Bool) : Nat :=
  (List.range ((n + 49) / 50)).foldl
    (fun total j => if fails j then total else total + min 50 (n - j * 50)) 0

/-- Externally visible effects of one `insert_staging_data` call: the
returned inserted-count, the date span passed to the staging-table delete
RPC and to the final-table delete RPC (`none` when the RPC was never
called), and the prepared rows handed to the insert step. -/
structure LoadResult where
  inserted : Nat
  stagingDeleteSpan : Option (Date × Date)
  finalDeleteSpan : Option (Date × Date)
  attemptedRows : List RawRecord
deriving DecidableEq

/-- Embeds `SupabaseClient.insert_staging_data` (supabase_client.py).
Control flow, in source order: return 0 on an empty DataFrame; return 0 when
no `date` column exists; filter rows to those with a present, non-empty,
non-`'nan'` date; return 0 when the filter leaves nothing; parse the
remaining date values and return 0 when none parses; otherwise derive the
span `[min, max]` of the parsed dates, truncate staging and final rows in
that span, then bulk-insert all cleaned rows, falling back to batches of 50
on failure. -/
def insert_staging_data (parse : String → Option Date) (df : DataFrame)
    (o : DbOracle) : LoadResult :=
  if df.rows.isEmpty then ⟨0, none, none, []⟩
  else if !df.hasDateColumn then ⟨0, none, none, []⟩
  else
    let df_clean := df.rows.filter usableDate
    if df_clean.isEmpty then ⟨0, none, none, []⟩
    else
      match df_clean.filterMap (parseOf parse) with
      | [] => ⟨0, none, none, []⟩
      | d :: ds =>
        let start_date := listMinD ds d
        let end_date := listMaxD ds d
        let bulk_records := df_clean
        if bulk_records.isEmpty then ⟨0, none, none, []⟩
        else
          let total_inserted :=
            if o.bulkInsertFails then
              fallbackInsertTotal bulk_records.length o.batchInsertFails
            else bulk_records.length
          ⟨total_inserted, some (start_date, end_date),
            some (start_date, end_date), bulk_records⟩

/-- C10: a non-empty record set in which no record carries a usable,
parseable date — including the case where the `date` column is absent
entirely — yields 0 inserted rows and no staging- or final-table delete. -/
theorem C10_unparseable_dates_no_delete (parse : String → Option Date)
    (df : DataFrame) (o : DbOracle) (h0 : df.rows ≠ [])
    (hcol : df.hasDateColumn = false ∨
      ∀ r ∈ df.rows, ∀ s, r.date = some s →
        s = "" ∨ s = "nan" ∨ parse s = none) :
    insert_staging_data parse df o = ⟨0, none, none, []⟩ := by
  unfold insert_staging_data
  rw [if_neg (by simp [List.isEmpty_iff, h0])]
  rcases hcol with hcol | hcol
  · rw [if_pos (by simp [hcol])]
  · cases hcb : df.hasDateColumn with
    | false => rw [if_pos (by simp [hcb])]
    | true =>
      rw [if_neg (by simp [hcb])]
      dsimp only
      by_cases hclean : (df.rows.filter usableDate).isEmpty
      · rw [if_pos hclean]
      · rw [if_neg hclean]
        have hfm : (df.rows.filter usableDate).filterMap (parseOf parse) = [] := by
          rw [List.filterMap_eq_nil_iff]
          intro r hr
          have hmem := List.mem_filter.mp hr
          unfold parseOf
          unfold usableDate at hmem
          match hd : r.date with
          | none => rfl
          | some s =>
            rw [hd] at hmem
            simp only [bne_iff_ne, ne_eq, Bool.and_eq_true, decide_eq_true_eq] at hmem
            rcases hcol r hmem.1 s hd with h | h | h
            · exact absurd h hmem.2.1
            · exact absurd h hmem.2.2
            · exact h
        rw [hfm]

/-- The string `'garbage'`: a present, non-empty date value that no parser
accepts in the concrete instances below. -/
def strGarbage : String := "garbage"

/-- The string `'2024-05-01'`, parsed to 2024-05-01 by the concrete parser
of the instances below. -/
def strMay : String := "2024-05-01"

/-- Concrete parser accepting exactly `strMay`. -/
def parseMayOnly : String → Option Date :=
  fun s => if s = strMay then some ⟨2024, 5, 1⟩ else none

/-- Witness for C10: one row whose date value parses to nothing. -/
theorem C10_unparseable_dates_no_delete_witness :
    insert_staging_data parseMayOnly ⟨true, [⟨some strGarbage⟩]⟩
      ⟨false, fun _ => false⟩ = ⟨0, none, none, []⟩ :=
  C10_unparseable_dates_no_delete parseMayOnly ⟨true, [⟨some strGarbage⟩]⟩
    ⟨false, fun _ => false⟩ (by decide)
    (Or.inr (by
      intro r hr s hs
      rw [List.mem_singleton] at hr
      subst hr
      cases hs
      exact Or.inr (Or.inr (by decide))))

theorem listMinD_spec :
    ∀ (l : List Date) (d : Date),
      (listMinD l d = d ∨ listMinD l d ∈ l) ∧
      listMinD l d ≤ d ∧ ∀ x ∈ l, listMinD l d ≤ x := by
  intro l
  induction l with
  | nil =>
    intro d
    exact ⟨Or.inl rfl, Date.le_refl d, by intro x hx; cases hx⟩
  | cons b l ih =>
    intro d
    have hstep : listMinD (b :: l) d = listMinD l (if b < d then b else d) := rfl
    obtain ⟨hmem, hled, hall⟩ := ih (if b < d then b else d)
    have hled2 : listMinD l (if b < d then b else d) ≤ d := by
      refine Date.le_trans hled ?_
      split
      · exact Date.le_of_lt (by assumption)
      · exact Date.le_refl d
    have hleb : listMinD l (if b < d then b else d) ≤ b := by
      refine Date.le_trans hled ?_
      split
      · exact Date.le_refl b
      · exact Date.not_lt.mp (by assumption)
    refine ⟨?_, ?_, ?_⟩
    · rw [hstep]
      rcases hmem with h | h
      · rw [h]
        split
        · exact Or.inr (List.mem_cons_self b l)
        · exact Or.inl rfl
      · exact Or.inr (List.mem_cons_of_mem b h)
    · rw [hstep]; exact hled2
    · intro x hx
      rw [hstep]
      rcases List.mem_cons.mp hx with h | h
      · rw [h]; exact hleb
      · exact hall x h

theorem listMaxD_spec :
    ∀ (l : List Date) (d : Date),
      (listMaxD l d = d ∨ listMaxD l d ∈ l) ∧
      d ≤ listMaxD l d ∧ ∀ x ∈ l, x ≤ listMaxD l d := by
  intro l
  induction l with
  | nil =>
    intro d
    exact ⟨Or.inl rfl, Date.le_refl d, by intro x hx; cases hx⟩
  | cons b l ih =>
    intro d
    have hstep : listMaxD (b :: l) d = listMaxD l (if d < b then b else d) := rfl
    obtain ⟨hmem, hled, hall⟩ := ih (if d < b then b else d)
    have hled2 : d ≤ listMaxD l (if d < b then b else d) := by
      refine Date.le_trans ?_ hled
      split
      · exact Date.le_of_lt (by assumption)
      · exact Date.le_refl d
    have hleb : b ≤ listMaxD l (if d < b then b else d) := by
      refine Date.le_trans ?_ hled
      split
      · exact Date.le_refl b
      · exact Date.not_lt.mp (by assumption)
    refine ⟨?_, ?_, ?_⟩
    · rw [hstep]
      rcases hmem with h | h
      · rw [h]
        split
        · exact Or.inr (List.mem_cons_self b l)
        · exact Or.inl rfl
      · exact Or.inr (List.mem_cons_of_mem b h)
    · rw [hstep]; exact hled2
    · intro x hx
      rw [hstep]
      rcases List.mem_cons.mp hx with h | h
      · rw [h]; exact hleb
      · exact hall x h

/-- All degenerate paths of `insert_staging_data` (no rows, no `date` column,
nothing usable, nothing parseable) return 0 with no deletes and no insert
attempt. -/
theorem insert_staging_data_degenerate (parse : String → Option Date)
    (df : DataFrame) (o : DbOracle)
    (h : df.hasDateColumn = false ∨
      (df.rows.filter usableDate).filterMap (parseOf parse) = []) :
    insert_staging_data parse df o = ⟨0, none, none, []⟩ := by
  unfold insert_staging_data
  by_cases hre : df.rows.isEmpty
  · rw [if_pos hre]
  · rw [if_neg hre]
    rcases h with hcol | hfm
    · rw [if_pos (by simp [hcol])]
    · cases hcb : df.hasDateColumn with
      | false => rw [if_pos (by simp [hcb])]
      | true =>
        rw [if_neg (by simp [hcb])]
        dsimp only
        by_cases hclean : (df.rows.filter usableDate).isEmpty
        · rw [if_pos hclean]
        · rw [if_neg hclean]
          rw [hfm]

/-- The main path of `insert_staging_data`: when a `date` column exists and
the cleaned rows yield at least one parsed date, the function truncates the
span `[min, max]` of the parsed dates in both tables and attempts to insert
every cleaned row. -/
theorem insert_staging_data_main (parse : String → Option Date)
    (df : DataFrame) (o : DbOracle) (d : Date) (ds : List Date)
    (hcol : df.hasDateColumn = true)
    (hfm : (df.rows.filter usableDate).filterMap (parseOf parse) = d :: ds) :
    insert_staging_data parse df o =
      ⟨if o.bulkInsertFails then
          fallbackInsertTotal (df.rows.filter usableDate).length
            o.batchInsertFails
        else (df.rows.filter usableDate).length,
       some (listMinD ds d, listMaxD ds d),
       some (listMinD ds d, listMaxD ds d),
       df.rows.filter usableDate⟩ := by
  have hclean : ¬ (df.rows.filter usableDate).isEmpty := by
    intro hn
    rw [List.isEmpty_iff] at hn
    rw [hn] at hfm
    cases hfm
  have hrows : ¬ df.rows.isEmpty := by
    intro hn
    rw [List.isEmpty_iff] at hn
    rw [hn] at hclean
    exact hclean rfl
  unfold insert_staging_data
  rw [if_neg hrows, if_neg (by simp [hcol])]
  dsimp only
  rw [if_neg hclean, hfm]
  dsimp only
  rw [if_neg hclean]

/-- C2: loading an empty record set returns 0 inserted and performs neither
the staging-table nor the final-table delete (the function returns before
the truncate RPCs); and in general the destructive delete step only runs
when at least one record with a present, non-empty, non-`'nan'`, parseable
date exists. -/
theorem C2_empty_load_is_noop (parse : String → Option Date)
    (df : DataFrame) (o : DbOracle) :
    (df.rows = [] → insert_staging_data parse df o = ⟨0, none, none, []⟩) ∧
    ((insert_staging_data parse df o).stagingDeleteSpan ≠ none ∨
        (insert_staging_data parse df o).finalDeleteSpan ≠ none →
      ∃ r ∈ df.rows, ∃ s, r.date = some s ∧ s ≠ "" ∧ s ≠ "nan" ∧
        (parse s).isSome = true) := by
  constructor
  · intro h
    unfold insert_staging_data
    rw [h]
    rfl
  · intro hdel
    cases hcb : df.hasDateColumn with
    | false =>
      rw [insert_staging_data_degenerate parse df o (Or.inl hcb)] at hdel
      rcases hdel with hdel | hdel <;> exact absurd rfl hdel
    | true =>
      cases hfm : (df.rows.filter usableDate).filterMap (parseOf parse) with
      | nil =>
        rw [insert_staging_data_degenerate parse df o (Or.inr hfm)] at hdel
        rcases hdel with hdel | hdel <;> exact absurd rfl hdel
      | cons d ds =>
        have hd : d ∈ (df.rows.filter usableDate).filterMap (parseOf parse) := by
          rw [hfm]
          exact List.mem_cons_self d ds
        rw [List.mem_filterMap] at hd
        obtain ⟨r, hr, hpr⟩ := hd
        rw [List.mem_filter] at hr
        obtain ⟨hrmem, hru⟩ := hr
        unfold usableDate at hru
        unfold parseOf at hpr
        match hdate : r.date with
        | none =>
          rw [hdate] at hru
          cases hru
        | some s =>
          rw [hdate] at hru hpr
          dsimp only at hpr
          simp only [bne_iff_ne, ne_eq, Bool.and_eq_true,
            decide_eq_true_eq] at hru
          exact ⟨r, hrmem, s, hdate, hru.1, hru.2,
            by rw [hpr]; rfl⟩

/-- Witness for C2 on a concrete empty DataFrame. -/
theorem C2_empty_load_is_noop_witness :
    insert_staging_data (fun _ => none) ⟨true, []⟩
      ⟨false, fun _ => false⟩ = ⟨0, none, none, []⟩ :=
  (C2_empty_load_is_noop (fun _ => none) ⟨true, []⟩
    ⟨false, fun _ => false⟩).1 rfl

/-- C7 counterexample: a record whose date value is present and non-empty
but unparseable (`'garbage'`) is excluded from span derivation yet still
included in the rows handed to the staging insert, contradicting the claim
that such records are excluded from insertion. -/
theorem C7_counterexample :
    (insert_staging_data parseMayOnly
      ⟨true, [⟨some strMay⟩, ⟨some strGarbage⟩]⟩
      ⟨false, fun _ => false⟩).stagingDeleteSpan =
        some (⟨2024, 5, 1⟩, ⟨2024, 5, 1⟩) ∧
    parseOf parseMayOnly ⟨some strGarbage⟩ = none ∧
    (⟨some strGarbage⟩ : RawRecord) ∈
      (insert_staging_data parseMayOnly
        ⟨true, [⟨some strMay⟩, ⟨some strGarbage⟩]⟩
        ⟨false, fun _ => false⟩).attemptedRows := by
  decide

/-- C7 (amended): whenever `insert_staging_data` issues its deletes, the
deletion span `[a, b]` is derived only from the dates of records whose date
value is present, non-empty, non-`'nan'` and parseable (`a` and `b` are the
minimum and maximum of those parsed dates), and records with an absent,
empty or `'nan'` date are excluded from insertion; records whose non-empty
date merely fails to parse are excluded from span derivation but are still
inserted (the inserted rows are exactly the cleaned rows). -/
theorem C7_span_parseable_only (parse : String → Option Date)
    (df : DataFrame) (o : DbOracle) (a b : Date)
    (h : (insert_staging_data parse df o).stagingDeleteSpan = some (a, b)) :
    (insert_staging_data parse df o).attemptedRows =
      df.rows.filter usableDate ∧
    (insert_staging_data parse df o).finalDeleteSpan = some (a, b) ∧
    a ∈ (df.rows.filter usableDate).filterMap (parseOf parse) ∧
    b ∈ (df.rows.filter usableDate).filterMap (parseOf parse) ∧
    ∀ x ∈ (df.rows.filter usableDate).filterMap (parseOf parse),
      a ≤ x ∧ x ≤ b := by
  cases hcb : df.hasDateColumn with
  | false =>
    rw [insert_staging_data_degenerate parse df o (Or.inl hcb)] at h
    cases h
  | true =>
    cases hfm : (df.rows.filter usableDate).filterMap (parseOf parse) with
    | nil =>
      rw [insert_staging_data_degenerate parse df o (Or.inr hfm)] at h
      cases h
    | cons d ds =>
      rw [insert_staging_data_main parse df o d ds hcb hfm] at h ⊢
      dsimp only at h ⊢
      obtain ⟨ha, hb⟩ : listMinD ds d = a ∧ listMaxD ds d = b := by
        have hinj := Option.some.inj h
        exact ⟨congrArg Prod.fst hinj, congrArg Prod.snd hinj⟩
      obtain ⟨hminmem, hminled, hminall⟩ := listMinD_spec ds d
      obtain ⟨hmaxmem, hmaxged, hmaxall⟩ := listMaxD_spec ds d
      refine ⟨rfl, h, ?_, ?_, ?_⟩
      · rw [← ha]
        rcases hminmem with hh | hh
        · rw [hh]; exact List.mem_cons_self d ds
        · exact List.mem_cons_of_mem d hh
      · rw [← hb]
        rcases hmaxmem with hh | hh
        · rw [hh]; exact List.mem_cons_self d ds
        · exact List.mem_cons_of_mem d hh
      · intro x hx
        rw [← ha, ← hb]
        rcases List.mem_cons.mp hx with hh | hh
        · subst hh
          exact ⟨hminled, hmaxged⟩
        · exact ⟨hminall x hh, hmaxall x hh⟩

/-- Witness for C7 at a concrete two-record input. -/
theorem C7_span_parseable_only_witness :
    ((insert_staging_data parseMayOnly ⟨true, [⟨some strMay⟩]⟩
        ⟨false, fun _ => false⟩).stagingDeleteSpan =
      some (⟨2024, 5, 1⟩, ⟨2024, 5, 1⟩)) ∧
    ((insert_staging_data parseMayOnly ⟨true, [⟨some strMay⟩]⟩
        ⟨false, fun _ => false⟩).attemptedRows =
      ([⟨some strMay⟩] : List RawRecord).filter usableDate ∧
    (insert_staging_data parseMayOnly ⟨true, [⟨some strMay⟩]⟩
        ⟨false, fun _ => false⟩).finalDeleteSpan =
      some (⟨2024, 5, 1⟩, ⟨2024, 5, 1⟩) ∧
    (⟨2024, 5, 1⟩ : Date) ∈
      (([⟨some strMay⟩] : List RawRecord).filter usableDate).filterMap
        (parseOf parseMayOnly) ∧
    (⟨2024, 5, 1⟩ : Date) ∈
      (([⟨some strMay⟩] : List RawRecord).filter usableDate).filterMap
        (parseOf parseMayOnly) ∧
    ∀ x ∈ (([⟨some strMay⟩] : List RawRecord).filter usableDate).filterMap
        (parseOf parseMayOnly),
      (⟨2024, 5, 1⟩ : Date) ≤ x ∧ x ≤ ⟨2024, 5, 1⟩) :=
  ⟨by decide,
    C7_span_parseable_only parseMayOnly ⟨true, [⟨some strMay⟩]⟩
      ⟨false, fun _ => false⟩ ⟨2024, 5, 1⟩ ⟨2024, 5, 1⟩ (by decide)⟩

/-- The batches the fallback loop of supabase_client.py iterates over:
consecutive 50-row slices `bulk_records[i:i+50]` of the prepared rows. -/
def chunksOf50 : List RawRecord → List (List RawRecord)
  | [] => []
  | x :: xs => ((x :: xs).take 50) :: chunksOf50 ((x :: xs).drop 50)
termination_by l => l.length
decreasing_by
  simp only [List.length_drop, List.length_cons]
  omega

/-- Number of rows in the batches whose insert does not raise, counting
batch `i` exactly when `fails i` is false. -/
def successfulBatchSum (fails : Nat → Bool) : List (List RawRecord) → Nat
  | [] => 0
  | b :: bs =>
    (if fails 0 then 0 else b.length) +
      successfulBatchSum (fun j => fails (j + 1)) bs

theorem foldl_if_add_eq_sum (g : Nat → Nat) (fails : Nat → Bool) :
    ∀ (l : List Nat) (a : Nat),
      l.foldl (fun total j => if fails j then total else total + g j) a =
        a + (l.map (fun j => if fails j then 0 else g j)).sum := by
  intro l
  induction l with
  | nil => intro a; simp
  | cons j l ih =>
    intro a
    rw [List.foldl_cons, ih, List.map_cons, List.sum_cons]
    split <;> omega

theorem fallbackInsertTotal_eq_sum (n : Nat) (fails : Nat → Bool) :
    fallbackInsertTotal n fails =
      ((List.range ((n + 49) / 50)).map
        (fun j => if fails j then 0 else min 50 (n - j * 50))).sum := by
  unfold fallbackInsertTotal
  rw [foldl_if_add_eq_sum (fun j => min 50 (n - j * 50)) fails]
  omega

/-- The fallback loop's accumulated count equals the total size of the
successful 50-row batches. -/
theorem fallbackInsertTotal_eq_batches (fails : Nat → Bool) (l : List RawRecord) :
    fallbackInsertTotal l.length fails =
      successfulBatchSum fails (chunksOf50 l) := by
  suffices hgen : ∀ (n : Nat) (l : List RawRecord) (fails : Nat → Bool),
      l.length = n →
      fallbackInsertTotal l.length fails =
        successfulBatchSum fails (chunksOf50 l) from
    hgen l.length l fails rfl
  intro n
  induction n using Nat.strong_induction_on with
  | _ n ih =>
    intro l fails hL
    cases l with
    | nil =>
      simp [fallbackInsertTotal, chunksOf50, successfulBatchSum]
    | cons x xs =>
      rw [fallbackInsertTotal_eq_sum]
      have hn : 1 ≤ (x :: xs).length := by simp
      have hk : ((x :: xs).length + 49) / 50 =
          (((x :: xs).drop 50).length + 49) / 50 + 1 := by
        rw [List.length_drop]
        simp only [List.length_cons] at hn ⊢
        omega
      rw [hk, List.range_succ_eq_map, List.map_cons, List.sum_cons,
        List.map_map]
      have hhead : (if fails 0 then 0 else min 50 ((x :: xs).length - 0 * 50)) =
          (if fails 0 then 0 else ((x :: xs).take 50).length) := by
        rw [List.length_take]
        norm_num
      have htail :
          ((List.range ((((x :: xs).drop 50).length + 49) / 50)).map
            ((fun j => if fails j then 0 else
              min 50 ((x :: xs).length - j * 50)) ∘ Nat.succ)).sum =
          successfulBatchSum (fun j => fails (j + 1))
            (chunksOf50 ((x :: xs).drop 50)) := by
        have hmap : ((fun j => if fails j then 0 else
            min 50 ((x :: xs).length - j * 50)) ∘ Nat.succ) =
            (fun j => if fails (j + 1) then 0 else
              min 50 (((x :: xs).drop 50).length - j * 50)) := by
          funext j
          simp only [Function.comp, Nat.succ_eq_add_one, List.length_drop]
          have harg : (x :: xs).length - (j + 1) * 50 =
              (x :: xs).length - 50 - j * 50 := by omega
          rw [harg]
        rw [hmap, ← fallbackInsertTotal_eq_sum]
        exact ih ((x :: xs).drop 50).length
          (by rw [List.length_drop]; simp only [List.length_cons] at hL ⊢; omega)
          ((x :: xs).drop 50) (fun j => fails (j + 1)) rfl
      rw [hhead, htail]
      conv_rhs => rw [chunksOf50]
      rfl

/-- C8: for every record set that reaches the insert step, insertion is
first attempted as one bulk operation (a non-raising bulk insert reports all
prepared rows); if the bulk insert raises, the rows are re-inserted in
consecutive batches of 50, a failing batch is skipped while all subsequent
batches are still attempted, and the returned count is the total size of the
batches that succeeded. -/
theorem C8_bulk_then_batches (parse : String → Option Date) (df : DataFrame)
    (o : DbOracle)
    (h : (insert_staging_data parse df o).attemptedRows ≠ []) :
    (o.bulkInsertFails = false →
      (insert_staging_data parse df o).inserted =
        (insert_staging_data parse df o).attemptedRows.length) ∧
    (o.bulkInsertFails = true →
      (insert_staging_data parse df o).inserted =
        successfulBatchSum o.batchInsertFails
          (chunksOf50 (insert_staging_data parse df o).attemptedRows)) := by
  cases hcb : df.hasDateColumn with
  | false =>
    rw [insert_staging_data_degenerate parse df o (Or.inl hcb)] at h
    exact absurd rfl h
  | true =>
    cases hfm : (df.rows.filter usableDate).filterMap (parseOf parse) with
    | nil =>
      rw [insert_staging_data_degenerate parse df o (Or.inr hfm)] at h
      exact absurd rfl h
    | cons d ds =>
      rw [insert_staging_data_main parse df o d ds hcb hfm]
      dsimp only
      constructor
      · intro hb
        simp only [hb, Bool.false_eq_true, if_false]
      · intro hb
        simp only [hb, if_true]
        exact fallbackInsertTotal_eq_batches o.batchInsertFails _

/-- A record row with the parseable date value of the concrete instances. -/
def rowMay : RawRecord := ⟨some strMay⟩

/-- A three-row DataFrame with a `date` column. -/
def dfSmall : DataFrame := ⟨true, [rowMay, rowMay, rowMay]⟩

/-- Oracle whose bulk insert raises and whose batch inserts all succeed. -/
def oracleBulkFail : DbOracle := ⟨true, fun _ => false⟩

/-- Witness for C8 on a concrete three-row input with a failing bulk
insert. -/
theorem C8_bulk_then_batches_witness :
    ((insert_staging_data parseMayOnly dfSmall oracleBulkFail).attemptedRows ≠
      []) ∧
    ((oracleBulkFail.bulkInsertFails = false →
      (insert_staging_data parseMayOnly dfSmall oracleBulkFail).inserted =
        (insert_staging_data parseMayOnly dfSmall
          oracleBulkFail).attemptedRows.length) ∧
    (oracleBulkFail.bulkInsertFails = true →
      (insert_staging_data parseMayOnly dfSmall oracleBulkFail).inserted =
        successfulBatchSum oracleBulkFail.batchInsertFails
          (chunksOf50 (insert_staging_data parseMayOnly dfSmall
            oracleBulkFail).attemptedRows))) :=
  ⟨by decide,
    C8_bulk_then_batches parseMayOnly dfSmall oracleBulkFail (by decide)⟩

/-- Two-digit zero padding, as in Python's `str(date)` rendering. -/
def pad2 (n : Nat) : String :=
  if n < 10 then "0" ++ toString n else toString n

/-- `str(d)` for a Python date: `YYYY-MM-DD`. -/
def Date.render (d : Date) : String :=
  toString d.year ++ "-" ++ pad2 d.month ++ "-" ++ pad2 d.day

/-- Outcome of processing one monthly chunk, abstracting the scraper and the
staging pipeline calls made inside the per-chunk `try` of
`sync_historical_data` (services.py lines 163-203): the scrape returned an
empty DataFrame, or the chunk was scraped and processed with the given
counts, or some call in the chunk body raised with the given message. -/
inductive ChunkOutcome where
  | emptyData
  | dataProcessed (scraped processed : Nat)
  | failure (msg : String)

/-- One element of `chunk_results` (services.py): the per-chunk report
dictionary.  Keys absent from a variant of the source dictionary are
`none`. -/
structure ChunkResult where
  chunk_index : Nat
  start_date : Date
  end_date : Date
  days : Int
  success : Bool
  records_scraped : Option Nat
  records_processed : Option Nat
  message : String
  error : Option String
deriving DecidableEq

/-- Build the chunk-result dictionary exactly as the three branches of the
source loop body do. -/
def mkChunkResult (i : Nat) (c : Date × Date) (oc : ChunkOutcome) :
    ChunkResult :=
  match oc with
  | .emptyData =>
    { chunk_index := i + 1, start_date := c.1, end_date := c.2,
      days := daysBetween c.1 c.2 + 1, success := true,
      records_scraped := some 0, records_processed := some 0,
      message := "No data found for this period", error := none }
  | .dataProcessed s p =>
    { chunk_index := i + 1, start_date := c.1, end_date := c.2,
      days := daysBetween c.1 c.2 + 1, success := true,
      records_scraped := some s, records_processed := some p,
      message := "Successfully processed " ++ toString p ++ " records",
      error := none }
  | .failure m =>
    { chunk_index := i + 1, start_date := c.1, end_date := c.2,
      days := daysBetween c.1 c.2 + 1, success := false,
      records_scraped := none, records_processed := none,
      message := "Failed to process chunk " ++ c.1.render ++ " to " ++
        c.2.render ++ ": " ++ m,
      error := some m }

/-- The mutable parts of `overall_results` threaded through the chunk
loop. -/
structure HistState where
  success : Bool
  chunk_results : List ChunkResult
  errors : List String
  chunks_processed : Nat
  total_records : Nat
deriving DecidableEq

/-- One iteration of the chunk loop of `sync_historical_data`: build the
chunk result for chunk `p.1` over range `p.2`; on success append it and
bump `chunks_processed` (and the record total when data was processed); on
failure append it, record the error message, and clear the overall success
flag — then continue with the next chunk. -/
def histStep (outcome : Nat → ChunkOutcome) (st : HistState)
    (p : Nat × (Date × Date)) : HistState :=
  let r := mkChunkResult p.1 p.2 (outcome p.1)
  match outcome p.1 with
  | .emptyData =>
    { st with
      chunk_results := st.chunk_results ++ [r]
      chunks_processed := st.chunks_processed + 1 }
  | .dataProcessed _ pr =>
    { st with
      chunk_results := st.chunk_results ++ [r]
      chunks_processed := st.chunks_processed + 1
      total_records := st.total_records + pr }
  | .failure _ =>
    { st with
      success := false
      chunk_results := st.chunk_results ++ [r]
      errors := st.errors ++ [r.message] }

/-- The separator of `'; '.join(...)`. -/
def joinSep : String := "; "

/-- The aggregated result of a historical run: the returned
`overall_results` dictionary together with the final sync-log update
(`finalStatus`, `finalError`). -/
structure HistoricalRunResult where
  success : Bool
  message : String
  start_date : Date
  end_date : Date
  warnings : List String
  total_chunks : Nat
  chunks_processed : Nat
  total_records_processed : Nat
  chunk_results : List ChunkResult
  errors : List String
  finalStatus : String
  finalRecordsProcessed : Nat
  finalError : Option String
deriving DecidableEq

/-- Embeds `SalesService.sync_historical_data` (services.py).  The range is
validated and split into monthly chunks; each chunk's outcome is supplied by
the `outcome` oracle (indexed by chunk position); `cleanupError` models
whether the post-loop `cleanup_staging_data` call raises (the only call of
the outer `try` after the loop): `some m` triggers the outer `except`, which
marks the sync log `failed`; otherwise the sync log is updated with
`completed` when every chunk succeeded and with `partial` otherwise. -/
def sync_historical_data (sd ed cd : Date) (outcome : Nat → ChunkOutcome)
    (cleanupError : Option String) : HistoricalRunResult :=
  let v := validate_date_range sd ed cd
  let chunks := split_date_range_by_month v.1 v.2.1
  let st := chunks.enum.foldl (histStep outcome) ⟨true, [], [], 0, 0⟩
  match cleanupError with
  | some m =>
    let emsg := "Error during historical sync process: " ++ m
    { success := false, message := emsg, start_date := v.1, end_date := v.2.1,
      warnings := v.2.2, total_chunks := chunks.length,
      chunks_processed := st.chunks_processed,
      total_records_processed := st.total_records,
      chunk_results := st.chunk_results, errors := st.errors,
      finalStatus := "failed", finalRecordsProcessed := st.total_records,
      finalError := some emsg }
  | none =>
    { success := st.success,
      message :=
        if st.success then
          "Successfully processed " ++ toString st.chunks_processed ++ "/" ++
            toString chunks.length ++ " monthly chunks with " ++
            toString st.total_records ++ " total records"
        else
          "Completed with errors. Processed " ++
            toString st.chunks_processed ++ "/" ++ toString chunks.length ++
            " chunks successfully, " ++ toString st.errors.length ++ " failed",
      start_date := v.1, end_date := v.2.1, warnings := v.2.2,
      total_chunks := chunks.length,
      chunks_processed := st.chunks_processed,
      total_records_processed := st.total_records,
      chunk_results := st.chunk_results, errors := st.errors,
      finalStatus := if st.success then "completed" else "partial",
      finalRecordsProcessed := st.total_records,
      finalError := if st.errors.isEmpty then none
        else some (String.intercalate joinSep st.errors) }

/-- Does the chunk outcome raise? -/
def isFailureOutcome : ChunkOutcome → Bool
  | .failure _ => true
  | _ => false

theorem mkChunkResult_success (i : Nat) (c : Date × Date) (oc : ChunkOutcome) :
    (mkChunkResult i c oc).success = !isFailureOutcome oc := by
  cases oc <;> rfl

theorem histStep_fields (o : Nat → ChunkOutcome) (st : HistState)
    (p : Nat × (Date × Date)) :
    (histStep o st p).chunk_results =
      st.chunk_results ++ [mkChunkResult p.1 p.2 (o p.1)] ∧
    (histStep o st p).success =
      (st.success && !isFailureOutcome (o p.1)) := by
  unfold histStep
  cases h : o p.1 with
  | emptyData => exact ⟨rfl, by simp [isFailureOutcome]⟩
  | dataProcessed s p2 => exact ⟨rfl, by simp [isFailureOutcome]⟩
  | failure m => exact ⟨rfl, by simp [isFailureOutcome]⟩

theorem histFold_fields (o : Nat → ChunkOutcome) :
    ∀ (l : List (Nat × (Date × Date))) (st : HistState),
      (l.foldl (histStep o) st).chunk_results =
        st.chunk_results ++ l.map (fun p => mkChunkResult p.1 p.2 (o p.1)) ∧
      (l.foldl (histStep o) st).success =
        (st.success && l.all (fun p => !isFailureOutcome (o p.1))) := by
  intro l
  induction l with
  | nil => intro st; simp
  | cons p l ih =>
    intro st
    rw [List.foldl_cons]
    obtain ⟨ihr, ihs⟩ := ih (histStep o st p)
    obtain ⟨hsr, hss⟩ := histStep_fields o st p
    constructor
    · rw [ihr, hsr, List.map_cons, List.append_assoc, List.singleton_append]
    · rw [ihs, hss, List.all_cons, Bool.and_assoc]

/-- The fields of a historical run that completes its chunk loop without a
fatal error (no cleanup failure), characterized in terms of the chunk list
and the outcome oracle. -/
theorem sync_hist_fields (sd ed cd : Date) (o : Nat → ChunkOutcome) :
    (sync_historical_data sd ed cd o none).chunk_results =
      (split_date_range_by_month (validate_date_range sd ed cd).1
        (validate_date_range sd ed cd).2.1).enum.map
        (fun p => mkChunkResult p.1 p.2 (o p.1)) ∧
    (sync_historical_data sd ed cd o none).total_chunks =
      (split_date_range_by_month (validate_date_range sd ed cd).1
        (validate_date_range sd ed cd).2.1).length ∧
    (sync_historical_data sd ed cd o none).finalStatus =
      (if (split_date_range_by_month (validate_date_range sd ed cd).1
          (validate_date_range sd ed cd).2.1).enum.all
          (fun p => !isFailureOutcome (o p.1)) = true
        then "completed" else "partial") := by
  obtain ⟨hres, hsucc⟩ := histFold_fields o
    ((split_date_range_by_month (validate_date_range sd ed cd).1
      (validate_date_range sd ed cd).2.1).enum) ⟨true, [], [], 0, 0⟩
  unfold sync_historical_data
  dsimp only
  rw [hres, hsucc]
  refine ⟨by simp, rfl, ?_⟩
  rw [Bool.true_and]

/-- The message recorded for the failing chunk of the concrete runs
below. -/
def msgBoom : String := "boom"

/-- C1 counterexample: a single-chunk historical run whose only chunk fails
(no chunk succeeded, no fatal error) writes final status `partial`, not
`failed` as the claim requires. -/
theorem C1_counterexample :
    (sync_historical_data ⟨2024, 5, 1⟩ ⟨2024, 5, 1⟩ ⟨2025, 1, 1⟩
        (fun _ => ChunkOutcome.failure msgBoom) none).chunk_results ≠ [] ∧
    (∀ cr ∈ (sync_historical_data ⟨2024, 5, 1⟩ ⟨2024, 5, 1⟩ ⟨2025, 1, 1⟩
        (fun _ => ChunkOutcome.failure msgBoom) none).chunk_results,
      cr.success = false) ∧
    (sync_historical_data ⟨2024, 5, 1⟩ ⟨2024, 5, 1⟩ ⟨2025, 1, 1⟩
        (fun _ => ChunkOutcome.failure msgBoom) none).finalStatus =
      "partial" ∧
    (sync_historical_data ⟨2024, 5, 1⟩ ⟨2024, 5, 1⟩ ⟨2025, 1, 1⟩
        (fun _ => ChunkOutcome.failure msgBoom) none).finalStatus ≠
      "failed" := by
  decide

/-- C1 (amended): when the chunk loop completes without a fatal error, the
final status written to the sync batch is `completed` exactly when every
chunk succeeded and `partial` otherwise — also when no chunk succeeded;
`failed` is never written on this path. -/
theorem C1_final_status (sd ed cd : Date) (o : Nat → ChunkOutcome) :
    ((sync_historical_data sd ed cd o none).finalStatus = "completed" ∨
      (sync_historical_data sd ed cd o none).finalStatus = "partial") ∧
    ((sync_historical_data sd ed cd o none).finalStatus = "completed" ↔
      ∀ cr ∈ (sync_historical_data sd ed cd o none).chunk_results,
        cr.success = true) := by
  obtain ⟨hres, htc, hstat⟩ := sync_hist_fields sd ed cd o
  rw [hres, hstat]
  cases hall : (split_date_range_by_month (validate_date_range sd ed cd).1
      (validate_date_range sd ed cd).2.1).enum.all
      (fun p => !isFailureOutcome (o p.1)) with
  | true =>
    rw [if_pos rfl]
    refine ⟨Or.inl rfl, ?_⟩
    constructor
    · intro _ cr hcr
      rw [List.mem_map] at hcr
      obtain ⟨p, hp, hpe⟩ := hcr
      rw [← hpe, mkChunkResult_success]
      have := List.all_eq_true.mp hall p hp
      rw [this]
    · intro _; rfl
  | false =>
    rw [if_neg (by simp)]
    refine ⟨Or.inr rfl, ?_⟩
    constructor
    · intro hcon
      exact absurd hcon (by decide)
    · intro hforall
      exfalso
      have : (split_date_range_by_month (validate_date_range sd ed cd).1
          (validate_date_range sd ed cd).2.1).enum.all
          (fun p => !isFailureOutcome (o p.1)) = true := by
        rw [List.all_eq_true]
        intro p hp
        have := hforall (mkChunkResult p.1 p.2 (o p.1))
          (List.mem_map_of_mem _ hp)
        rw [mkChunkResult_success] at this
        exact this
      rw [this] at hall
      cases hall

/-- A chunk result reflects its chunk's own outcome: success with the
scraped/processed counts for a processed chunk, success with zero counts for
an empty chunk, and failure with the recorded error text for a raising
chunk. -/
def reflectsOutcome (oc : ChunkOutcome) (cr : ChunkResult) : Prop :=
  match oc with
  | .emptyData =>
    cr.success = true ∧ cr.records_scraped = some 0 ∧
      cr.records_processed = some 0
  | .dataProcessed s p =>
    cr.success = true ∧ cr.records_scraped = some s ∧
      cr.records_processed = some p
  | .failure m =>
    cr.success = false ∧ cr.error = some m

theorem reflectsOutcome_mk (i : Nat) (c : Date × Date) (oc : ChunkOutcome) :
    reflectsOutcome oc (mkChunkResult i c oc) := by
  cases oc with
  | emptyData => exact ⟨rfl, rfl, rfl⟩
  | dataProcessed s p => exact ⟨rfl, rfl, rfl⟩
  | failure m => exact ⟨rfl, rfl⟩

/-- C5: in a historical run over N chunks where the oracle makes chunk `k`
raise (and the run has no fatal error), the run still produces N chunk
results; result `k` is marked failed with the error text recorded; every
result — in particular each of the other N-1 — reflects its own chunk's
outcome (the loop continued past the failure); and the overall status
written is `partial`. -/
theorem C5_failure_isolation (sd ed cd : Date) (o : Nat → ChunkOutcome)
    (k : Nat) (m : String)
    (hk : k < (sync_historical_data sd ed cd o none).total_chunks)
    (ho : o k = ChunkOutcome.failure m) :
    (sync_historical_data sd ed cd o none).chunk_results.length =
      (sync_historical_data sd ed cd o none).total_chunks ∧
    (∀ hk2 : k <
        (sync_historical_data sd ed cd o none).chunk_results.length,
      ((sync_historical_data sd ed cd o none).chunk_results.get
        ⟨k, hk2⟩).success = false ∧
      ((sync_historical_data sd ed cd o none).chunk_results.get
        ⟨k, hk2⟩).error = some m) ∧
    (∀ (j : Nat)
      (hj : j < (sync_historical_data sd ed cd o none).chunk_results.length),
      reflectsOutcome (o j)
        ((sync_historical_data sd ed cd o none).chunk_results.get
          ⟨j, hj⟩)) ∧
    (sync_historical_data sd ed cd o none).finalStatus = "partial" := by
  obtain ⟨hres, htc, hstat⟩ := sync_hist_fields sd ed cd o
  rw [htc] at hk
  rw [hres, htc, hstat]
  have hlenm : ((split_date_range_by_month (validate_date_range sd ed cd).1
      (validate_date_range sd ed cd).2.1).enum.map
      (fun p => mkChunkResult p.1 p.2 (o p.1))).length =
      (split_date_range_by_month (validate_date_range sd ed cd).1
        (validate_date_range sd ed cd).2.1).length := by
    rw [List.length_map, List.enum_length]
  have hget : ∀ (j : Nat) (hj : j < ((split_date_range_by_month
      (validate_date_range sd ed cd).1
      (validate_date_range sd ed cd).2.1).enum.map
      (fun p => mkChunkResult p.1 p.2 (o p.1))).length),
      ((split_date_range_by_month (validate_date_range sd ed cd).1
        (validate_date_range sd ed cd).2.1).enum.map
        (fun p => mkChunkResult p.1 p.2 (o p.1))).get ⟨j, hj⟩ =
        mkChunkResult j
          ((split_date_range_by_month (validate_date_range sd ed cd).1
            (validate_date_range sd ed cd).2.1).get
            ⟨j, by rw [hlenm] at hj; exact hj⟩) (o j) := by
    intro j hj
    rw [List.get_eq_getElem, List.getElem_map, List.getElem_enum,
      List.get_eq_getElem]
  have hkl : k < (split_date_range_by_month (validate_date_range sd ed cd).1
      (validate_date_range sd ed cd).2.1).enum.length := by
    rw [List.enum_length]; exact hk
  have hall : (split_date_range_by_month (validate_date_range sd ed cd).1
      (validate_date_range sd ed cd).2.1).enum.all
      (fun p => !isFailureOutcome (o p.1)) = false := by
    cases hcase : (split_date_range_by_month (validate_date_range sd ed cd).1
        (validate_date_range sd ed cd).2.1).enum.all
        (fun p => !isFailureOutcome (o p.1)) with
    | false => rfl
    | true =>
      exfalso
      have hmem := List.getElem_mem (l := (split_date_range_by_month
        (validate_date_range sd ed cd).1
        (validate_date_range sd ed cd).2.1).enum) (n := k) hkl
      have hfk := List.all_eq_true.mp hcase _ hmem
      rw [List.getElem_enum] at hfk
      dsimp only at hfk
      rw [ho] at hfk
      cases hfk
  refine ⟨hlenm, ?_, ?_, ?_⟩
  · intro hk2
    rw [hget k hk2, ho]
    exact ⟨rfl, rfl⟩
  · intro j hj
    rw [hget j hj]
    exact reflectsOutcome_mk j _ (o j)
  · rw [hall]
    rfl

/-- Oracle making chunk 0 fail and every other chunk succeed with data. -/
def outcomeK0 : Nat → ChunkOutcome :=
  fun i => if i = 0 then ChunkOutcome.failure msgBoom
    else ChunkOutcome.dataProcessed 5 7

/-- Witness for C5 on a concrete two-chunk run whose first chunk fails. -/
theorem C5_failure_isolation_witness :
    (0 < (sync_historical_data ⟨2024, 3, 5⟩ ⟨2024, 4, 10⟩ ⟨2025, 1, 1⟩
        outcomeK0 none).total_chunks ∧
      outcomeK0 0 = ChunkOutcome.failure msgBoom) ∧
    ((sync_historical_data ⟨2024, 3, 5⟩ ⟨2024, 4, 10⟩ ⟨2025, 1, 1⟩
        outcomeK0 none).chunk_results.length =
      (sync_historical_data ⟨2024, 3, 5⟩ ⟨2024, 4, 10⟩ ⟨2025, 1, 1⟩
        outcomeK0 none).total_chunks ∧
    (∀ hk2 : 0 < (sync_historical_data ⟨2024, 3, 5⟩ ⟨2024, 4, 10⟩
        ⟨2025, 1, 1⟩ outcomeK0 none).chunk_results.length,
      ((sync_historical_data ⟨2024, 3, 5⟩ ⟨2024, 4, 10⟩ ⟨2025, 1, 1⟩
        outcomeK0 none).chunk_results.get ⟨0, hk2⟩).success = false ∧
      ((sync_historical_data ⟨2024, 3, 5⟩ ⟨2024, 4, 10⟩ ⟨2025, 1, 1⟩
        outcomeK0 none).chunk_results.get ⟨0, hk2⟩).error = some msgBoom) ∧
    (∀ (j : Nat)
      (hj : j < (sync_historical_data ⟨2024, 3, 5⟩ ⟨2024, 4, 10⟩
        ⟨2025, 1, 1⟩ outcomeK0 none).chunk_results.length),
      reflectsOutcome (outcomeK0 j)
        ((sync_historical_data ⟨2024, 3, 5⟩ ⟨2024, 4, 10⟩ ⟨2025, 1, 1⟩
          outcomeK0 none).chunk_results.get ⟨j, hj⟩)) ∧
    (sync_historical_data ⟨2024, 3, 5⟩ ⟨2024, 4, 10⟩ ⟨2025, 1, 1⟩
      outcomeK0 none).finalStatus = "partial") :=
  ⟨⟨by decide, rfl⟩,
    C5_failure_isolation ⟨2024, 3, 5⟩ ⟨2024, 4, 10⟩ ⟨2025, 1, 1⟩ outcomeK0
      0 msgBoom (by decide) rfl⟩

/-- The status strings written to the sync log. -/
def statusFailed : String := "failed"

/-- The sync-log status written on success. -/
def statusCompleted : String := "completed"

/-- `f'Daily sync failed: {str(e)}'` (services.py line 104). -/
def msgDailyFailed (m : String) : String := "Daily sync failed: " ++ m

/-- The empty-scrape message of the daily sync. -/
def msgNoDataToday : String := "No data available for today"

/-- `f'Successfully processed {records_processed} records'`. -/
def msgDailyOk (n : Nat) : String :=
  "Successfully processed " ++ toString n ++ " records"

/-- Outcomes of the external calls made by `sync_daily_data`
(services.py lines 25-106), in stage order: whether `create_sync_log`
raises, whether the scrape raises, how many rows it returns otherwise,
whether `insert_staging_data` raises, and whether
`process_staging_to_final` raises.  `update_sync_log` and
`cleanup_staging_data` catch their own exceptions internally
(supabase_client.py lines 73-74 and 272-273) and never raise. -/
structure DailyOracle where
  createError : Option String
  scrapeError : Option String
  scrapedCount : Nat
  insertError : Option String
  insertedCount : Nat
  processError : Option String
  processedCount : Nat

/-- The dictionary returned by `sync_daily_data`. -/
structure DailyReturn where
  success : Bool
  message : String
  error : Option String
deriving DecidableEq

/-- Externally visible behaviour of one `sync_daily_data` call: whether an
exception propagated to the caller, the returned dictionary, and the
`(status, error_message)` pair written to the sync log (`none` when no
update was issued). -/
structure DailyRunResult where
  raised : Option String
  returned : DailyReturn
  batchUpdate : Option (String × Option String)
deriving DecidableEq

/-- Embeds `SalesService.sync_daily_data` (services.py).  The whole body
runs inside one `try`; the `except` block updates the sync log to `failed`
when a batch was created (`'batch_id' in locals()`) and then returns a
failure dictionary — it does not re-raise, so `raised` is always `none`. -/
def sync_daily_data (o : DailyOracle) : DailyRunResult :=
  match o.createError with
  | some m =>
    { raised := none
      returned := ⟨false, msgDailyFailed m, some m⟩
      batchUpdate := none }
  | none =>
    match o.scrapeError with
    | some m =>
      { raised := none
        returned := ⟨false, msgDailyFailed m, some m⟩
        batchUpdate := some (statusFailed, some m) }
    | none =>
      if o.scrapedCount = 0 then
        { raised := none
          returned := ⟨true, msgNoDataToday, none⟩
          batchUpdate := some (statusCompleted, none) }
      else
        match o.insertError with
        | some m =>
          { raised := none
            returned := ⟨false, msgDailyFailed m, some m⟩
            batchUpdate := some (statusFailed, some m) }
        | none =>
          match o.processError with
          | some m =>
            { raised := none
              returned := ⟨false, msgDailyFailed m, some m⟩
              batchUpdate := some (statusFailed, some m) }
          | none =>
            { raised := none
              returned := ⟨true, msgDailyOk o.processedCount, none⟩
              batchUpdate := some (statusCompleted, none) }

/-- Oracle whose scrape raises. -/
def oracleScrapeFail : DailyOracle := ⟨none, some msgBoom, 0, none, 0, none, 0⟩

/-- C6 counterexample: when the scrape raises, the batch is updated to
`failed` with the message recorded, but no exception propagates to the
caller — the function returns a failure dictionary instead of re-raising,
contradicting the claimed re-raise. -/
theorem C6_counterexample :
    (sync_daily_data oracleScrapeFail).batchUpdate =
      some (statusFailed, some msgBoom) ∧
    (sync_daily_data oracleScrapeFail).returned.success = false ∧
    (sync_daily_data oracleScrapeFail).raised = none := by
  decide

/-- C6 (amended): when any stage after batch creation raises, the sync
batch is updated to status `failed` with the exception message recorded,
and the function then returns a structured failure result (success false,
error recorded) to the caller without re-raising the exception. -/
theorem C6_daily_failure_marks_batch (o : DailyOracle) (m : String)
    (hc : o.createError = none)
    (hm : o.scrapeError = some m ∨
      (o.scrapeError = none ∧ o.scrapedCount ≠ 0 ∧
        (o.insertError = some m ∨
          (o.insertError = none ∧ o.processError = some m)))) :
    (sync_daily_data o).batchUpdate = some (statusFailed, some m) ∧
    (sync_daily_data o).returned.success = false ∧
    (sync_daily_data o).returned.error = some m ∧
    (sync_daily_data o).raised = none := by
  unfold sync_daily_data
  rw [hc]
  rcases hm with hm | ⟨hs, hc2, hm⟩
  · rw [hm]
    exact ⟨rfl, rfl, rfl, rfl⟩
  · rw [hs]
    dsimp only
    rw [if_neg hc2]
    rcases hm with hm | ⟨hi, hm⟩
    · rw [hm]
      exact ⟨rfl, rfl, rfl, rfl⟩
    · rw [hi, hm]
      exact ⟨rfl, rfl, rfl, rfl⟩

/-- Oracle whose staging insert raises after a non-empty scrape. -/
def oracleInsertFail : DailyOracle := ⟨none, none, 5, some msgBoom, 0, none, 0⟩

/-- Witness for C6 on a concrete run whose insert stage raises. -/
theorem C6_daily_failure_marks_batch_witness :
    (oracleInsertFail.createError = none ∧
      (oracleInsertFail.scrapeError = some msgBoom ∨
        (oracleInsertFail.scrapeError = none ∧
          oracleInsertFail.scrapedCount ≠ 0 ∧
          (oracleInsertFail.insertError = some msgBoom ∨
            (oracleInsertFail.insertError = none ∧
              oracleInsertFail.processError = some msgBoom))))) ∧
    ((sync_daily_data oracleInsertFail).batchUpdate =
      some (statusFailed, some msgBoom) ∧
    (sync_daily_data oracleInsertFail).returned.success = false ∧
    (sync_daily_data oracleInsertFail).returned.error = some msgBoom ∧
    (sync_daily_data oracleInsertFail).raised = none) :=
  ⟨⟨rfl, Or.inr ⟨rfl, by decide, Or.inl rfl⟩⟩,
    C6_daily_failure_marks_batch oracleInsertFail msgBoom rfl
      (Or.inr ⟨rfl, by decide, Or.inl rfl⟩)⟩
